import Mathlib

/-!
Verification of the JSON-file-backed CRUD server (Express backend).

The development shallowly embeds the server's core:
* the JSON data model and the JavaScript object operations the handlers use
  (property lookup, `delete`, object spread, property assignment),
* `JSON.stringify(-, null, 2)` as used by the persistence tasks,
* `schema.js` (the generated zod validator for the `game` type and the
  readonly-property registry),
* the route handlers (POST / PUT / DELETE) as pure functions from the
  in-memory cache and the request to a response and a new cache,
* `loadData` (the startup integrity gate) as a function of the parsed file,
* the write-serialization mechanism (`saveData` / `processWriteQueue`) as a
  small-step transition system over an explicit scheduler state, in which the
  suspension points of the Node event loop (the `await fs.writeFile`, the
  `setImmediate` callbacks) are the interleaving points.

File-system and network primitives (`fs.writeFile`, `JSON.parse`, express)
are the boundaries of the embedding: their *outcomes* are inputs of the
embedded functions.
-/

namespace ProgettoBackend

/-! ## JSON values and JavaScript object operations -/

/-- A JSON value.  Numbers are modelled as integers: every number the
repository's schema and handlers manipulate (`id`, `releaseYear`, the parsed
path parameter of DELETE) is integral. -/
inductive Json where
  | null
  | bool (b : Bool)
  | num (n : Int)
  | str (s : String)
  | arr (elems : List Json)
  | obj (fields : List (String × Json))

/-- A JavaScript object: its own enumerable properties in insertion order.
Objects produced by `JSON.parse` and by the handlers never carry a duplicate
key. -/
abbrev Obj := List (String × Json)

/-- Property lookup `o.k`: `none` models the JavaScript `undefined`. -/
def getField (o : Obj) (k : String) : Option Json :=
  (o.find? (fun kv => kv.1 == k)).map (fun kv => kv.2)

/-- The `delete o.k` statement: the property is removed, the order of the
remaining properties is unchanged. -/
def deleteField (o : Obj) (k : String) : Obj :=
  o.filter (fun kv => kv.1 != k)

/-- Property assignment `o.k = v`: an existing property is updated in place,
a fresh one is appended (JavaScript insertion order). -/
def setField (o : Obj) (k : String) (v : Json) : Obj :=
  if (getField o k).isSome then
    o.map (fun kv => if kv.1 == k then (kv.1, v) else kv)
  else
    o ++ [(k, v)]

/-- The object spread `{...a, ...b}`: the properties of `a` in order, each
overridden by `b` when `b` also has the key, followed by the properties of
`b` that `a` does not have, in order. -/
def spreadMerge (a b : Obj) : Obj :=
  (a.map (fun kv =>
    match getField b kv.1 with
    | some v => (kv.1, v)
    | none => kv))
  ++ b.filter (fun kv => (getField a kv.1).isNone)

/-- JavaScript truthiness of a possibly-undefined value, as used by
`if (!newItem.slug)` and `item.id || "sconosciuto"`. -/
def truthy : Option Json → Bool
  | none => false
  | some .null => false
  | some (.bool b) => b
  | some (.num n) => n != 0
  | some (.str s) => s != ""
  | some (.arr _) => true
  | some (.obj _) => true

/-- JavaScript strict equality `===` on two possibly-undefined values.
Primitives compare structurally; two arrays or objects obtained from
distinct parses are distinct references, so the comparisons the handlers
perform on them are `false`. -/
def jsStrictEq : Option Json → Option Json → Bool
  | none, none => true
  | some .null, some .null => true
  | some (.bool a), some (.bool b) => a == b
  | some (.num a), some (.num b) => a == b
  | some (.str a), some (.str b) => a == b
  | _, _ => false

/-- The `slug` property of a record. -/
def slugOf (o : Obj) : Option Json := getField o "slug"

/-- Property access `item.slug` on an arbitrary cached JSON value: on a
non-object it is `undefined`.  (On `null` it would throw; for every
registered type the cache only ever holds schema-validated objects.) -/
def slugOfItem : Json → Option Json
  | .obj o => getField o "slug"
  | _ => none

/-- Property access `item.id` on an arbitrary cached JSON value. -/
def idOfItem : Json → Option Json
  | .obj o => getField o "id"
  | _ => none

/-- The test `p.slug === itemSlug` performed against a path parameter. -/
def itemSlugIs (item : Json) (s : String) : Bool :=
  jsStrictEq (slugOfItem item) (some (.str s))

/-- The own enumerable properties `{...item}` takes from a value (empty for
the primitives that can reach the handlers). -/
def fieldsOf : Json → Obj
  | .obj o => o
  | _ => []

/-! ## `JSON.stringify(x, null, 2)` -/

/-- The indentation for nesting depth `d` under `JSON.stringify(-, null, 2)`. -/
def indentStr (d : Nat) : String := String.mk (List.replicate (2 * d) ' ')

mutual
/-- `JSON.stringify(j, null, 2)` at nesting depth `d`. -/
def jsonStr (d : Nat) : Json → String
  | .null => "null"
  | .bool true => "true"
  | .bool false => "false"
  | .num n => toString n
  | .str s => "\"" ++ s ++ "\""
  | .arr [] => "[]"
  | .arr (x :: xs) => "[\n" ++ jsonStrElems (d + 1) x xs ++ "\n" ++ indentStr d ++ "]"
  | .obj [] => "\x7b\x7d"
  | .obj (kv :: kvs) => "\x7b\n" ++ jsonStrFields (d + 1) kv kvs ++ "\n" ++ indentStr d ++ "\x7d"
termination_by j => sizeOf j

/-- Comma-and-newline separated array elements, each on its own indented line. -/
def jsonStrElems (d : Nat) (x : Json) : List Json → String
  | [] => indentStr d ++ jsonStr d x
  | y :: ys => indentStr d ++ jsonStr d x ++ ",\n" ++ jsonStrElems d y ys
termination_by xs => 1 + sizeOf x + sizeOf xs

/-- Comma-and-newline separated object properties, each on its own indented line. -/
def jsonStrFields (d : Nat) (kv : String × Json) : List (String × Json) → String
  | [] => indentStr d ++ "\"" ++ kv.1 ++ "\": " ++ jsonStr d kv.2
  | kv2 :: kvs => indentStr d ++ "\"" ++ kv.1 ++ "\": " ++ jsonStr d kv.2 ++ ",\n" ++ jsonStrFields d kv2 kvs
termination_by kvs => 1 + sizeOf kv + sizeOf kvs
decreasing_by all_goals (obtain ⟨k, v⟩ := kv; simp <;> omega)
end

/-- The bytes `saveData`'s task writes for a cached collection:
`JSON.stringify(cache[type], null, 2)`. -/
def serializeCollection (c : List Json) : String :=
  jsonStr 0 (.arr c)

/-! ## `schema.js`: the generated zod validator and the readonly registry -/

/-- One structured validation issue, as produced by the `catch` branch of
`validateGame`: `field` is `err.path.join(".")` and `message` the zod
message. -/
structure FieldError where
  field : String
  message : String
  deriving DecidableEq

/-- The value a validator returns: `{valid, errors}` (`data` on success is
never consumed by the server). -/
structure VResult where
  valid : Bool
  errors : List FieldError

/-- Issues of a required `z.string(...)` property (with zod's message when
the property is absent). -/
def requiredStringField (o : Obj) (k requiredMsg : String) : List FieldError :=
  match getField o k with
  | none => [⟨k, requiredMsg⟩]
  | some (.str _) => []
  | some _ => [⟨k, "Expected string"⟩]

/-- Issues of a required `z.number()` property. -/
def requiredNumberField (o : Obj) (k : String) : List FieldError :=
  match getField o k with
  | none => [⟨k, "Required"⟩]
  | some (.num _) => []
  | some _ => [⟨k, "Expected number"⟩]

/-- Issues of an optional `z.string().optional()` property. -/
def optionalStringField (o : Obj) (k : String) : List FieldError :=
  match getField o k with
  | none => []
  | some (.str _) => []
  | some _ => [⟨k, "Expected string"⟩]

/-- Issues of an optional `z.number().optional()` property. -/
def optionalNumberField (o : Obj) (k : String) : List FieldError :=
  match getField o k with
  | none => []
  | some (.num _) => []
  | some _ => [⟨k, "Expected number"⟩]

/-- Issues of a required `z.array(z.string())` property; a non-string
element at position `i` is reported at path `k.i`. -/
def stringArrayField (o : Obj) (k : String) : List FieldError :=
  match getField o k with
  | none => [⟨k, "Required"⟩]
  | some (.arr xs) =>
      (xs.enum.filterMap (fun p =>
        match p.2 with
        | .str _ => none
        | _ => some ⟨k ++ "." ++ toString p.1, "Expected string"⟩))
  | some _ => [⟨k, "Expected array"⟩]

/-- The property names `GameSchema` declares. -/
def gameKeys : List String :=
  ["id", "createdAt", "updatedAt", "title", "slug", "category", "releaseYear",
   "developer", "rating", "description", "price", "systemRequirements",
   "imagesExtra", "tags", "links"]

/-- The `.strict()` check: one issue at the top-level path (`field` is the
empty string, displayed as `Generale`) when unrecognized keys are present. -/
def strictKeysIssue (o : Obj) : List FieldError :=
  let extra := (o.map (fun kv => kv.1)).filter (fun k => !(gameKeys.contains k))
  if extra.isEmpty then []
  else [⟨"", "Unrecognized keys: " ++ String.intercalate ", " extra⟩]

/-- `validateGame` from `schema.js`: `GameSchema.parse(data)` wrapped so that
it returns `{valid, errors}`.  `systemRequirements` and `links` are
`z.any()`, so only their presence is unconstrained and absence allowed. -/
def validateGame (j : Json) : VResult :=
  match j with
  | .obj o =>
      let errs :=
        optionalNumberField o "id"
        ++ optionalStringField o "createdAt"
        ++ optionalStringField o "updatedAt"
        ++ requiredStringField o "title" "Title is required"
        ++ requiredStringField o "slug" "Required"
        ++ requiredStringField o "category" "Category is required"
        ++ requiredNumberField o "releaseYear"
        ++ requiredStringField o "developer" "Required"
        ++ requiredStringField o "rating" "Required"
        ++ requiredStringField o "description" "Required"
        ++ requiredStringField o "price" "Required"
        ++ stringArrayField o "imagesExtra"
        ++ stringArrayField o "tags"
        ++ strictKeysIssue o
      ⟨errs.isEmpty, errs⟩
  | .null => ⟨false, [⟨"", "Expected object, received null"⟩]⟩
  | _ => ⟨false, [⟨"", "Expected object"⟩]⟩

/-- The validator registry exported by `schema.js`. -/
def validators : List (String × (Json → VResult)) := [("game", validateGame)]

/-- The readonly-property registry exported by `schema.js`. -/
def readonlyProperties : List (String × List String) := [("game", [])]

/-! ## Route handlers

Each handler is the body of the corresponding express route closure,
written as a pure function of the type's cached collection and the request,
returning the response and the new collection.  The `saveData` call the
mutating handlers make afterwards is treated in the write-serializer
section. -/

/-- Outcome of the POST route (create). -/
inductive PostResult where
  | invalidData (errors : List FieldError)   -- 400, `Invalid <type> data`
  | slugObbligatorio                         -- 400, `Slug obbligatorio`
  | slugEsistente                            -- 409, `Slug già esistente`
  | created (record : Obj)                   -- 201, `{success, [type]: newItem}`

/-- The `newItem` the POST handler stores: the body without any client
`id`, stamped with `createdAt`/`updatedAt` at the same ISO instant. -/
def postStamped (fields : Obj) (now : String) : Obj :=
  setField (setField (deleteField fields "id") "createdAt" (.str now)) "updatedAt" (.str now)

/-- The POST handler: validate the body, drop any client `id`, require a
truthy slug, reject a duplicate slug, stamp `createdAt`/`updatedAt` with the
same ISO instant `now`, and append to the cached collection. -/
def postHandler (validator : Json → VResult) (c : List Json) (body : Json)
    (now : String) : PostResult × List Json :=
  let vr := validator body
  if !vr.valid then (.invalidData vr.errors, c)
  else
    match body with
    | .obj fields =>
        let newItem := deleteField fields "id"
        if !truthy (getField newItem "slug") then (.slugObbligatorio, c)
        else if c.any (fun item => jsStrictEq (slugOfItem item) (getField newItem "slug")) then
          (.slugEsistente, c)
        else
          (.created (postStamped fields now), c ++ [.obj (postStamped fields now)])
    | _ =>
        -- a non-object body that the validator accepted: `newItem.slug` is
        -- undefined, hence falsy
        (.slugObbligatorio, c)

/-- Outcome of the GET-by-slug route. -/
inductive GetResult where
  | notFound                 -- 404
  | found (record : Json)    -- 200

/-- The GET-by-slug handler: first cached record whose `slug` strictly
equals the path parameter. -/
def getHandler (c : List Json) (slug : String) : GetResult :=
  match c.find? (fun p => itemSlugIs p slug) with
  | none => .notFound
  | some item => .found item

/-- Outcome of the PUT route (update by slug). -/
inductive PutResult where
  | notFound                                  -- 404
  | readonlyViolation (fields : List String)  -- 400, `Non puoi modificare proprietà readonly`
  | invalidData (errors : List FieldError)    -- 400, `Dati <type> non validi`
  | updated (record : Obj)                    -- 200

/-- The copy `{...req.body}` of a PUT body with `slug`, `id`, `createdAt`
and `updatedAt` deleted. -/
def cleanUpdateFields (body : Obj) : Obj :=
  deleteField (deleteField (deleteField (deleteField body "slug") "id") "createdAt") "updatedAt"

/-- The record the PUT handler stores on success:
`{...oldItem, ...updatedFields, updatedAt: now}`. -/
def mergedRecord (oldItem updatedFields : Obj) (now : String) : Obj :=
  setField (spreadMerge oldItem updatedFields) "updatedAt" (.str now)

/-- The PUT handler: locate the record by slug (404 when absent), drop the
server-managed keys from the body, reject when a remaining key is declared
readonly for the type, validate `{...oldItem, ...fieldsToValidate}` when at
least one field remains, and store the merge with a refreshed `updatedAt`. -/
def putHandler (validator : Json → VResult) (ro : List String) (c : List Json)
    (slug : String) (body : Obj) (now : String) : PutResult × List Json :=
  match c.findIdx? (fun p => itemSlugIs p slug) with
  | none => (.notFound, c)
  | some i =>
      let oldItem := fieldsOf (c.getD i .null)
      let updatedFields := cleanUpdateFields body
      let readonlyAttempts := (updatedFields.map (fun kv => kv.1)).filter (fun k => ro.contains k)
      if !readonlyAttempts.isEmpty then (.readonlyViolation readonlyAttempts, c)
      else
        let proceed : PutResult × List Json :=
          let ni := mergedRecord oldItem updatedFields now
          (.updated ni, c.set i (.obj ni))
        if updatedFields.length > 0 then
          let vr := validator (.obj (spreadMerge oldItem updatedFields))
          if !vr.valid then (.invalidData vr.errors, c) else proceed
        else proceed

/-- Outcome of the DELETE route. -/
inductive DeleteResult where
  | notFound               -- 404
  | deleted                -- 200, `{success: true}`

/-- The filter predicate `p.id !== itemId` (records kept by DELETE). -/
def keptByDelete (p : Json) (itemId : Int) : Bool :=
  !(jsStrictEq (idOfItem p) (some (.num itemId)))

/-- The DELETE handler: keep the records whose `id` is not strictly equal to
the parsed numeric path parameter; 404 when nothing was removed. -/
def deleteHandler (c : List Json) (itemId : Int) : DeleteResult × List Json :=
  let filteredItems := c.filter (fun p => keptByDelete p itemId)
  if filteredItems.length == c.length then (.notFound, c)
  else (.deleted, filteredItems)

/-- The process-wide cache, one collection per resource type.  A mutating
route for `type` touches only `cache[type]`. -/
def CacheMap := String → List Json

/-- The PUT route acting on the whole cache: the closure reads and writes
only its own type's collection. -/
def putOnCache (validator : Json → VResult) (ro : List String) (m : CacheMap)
    (type slug : String) (body : Obj) (now : String) : PutResult × CacheMap :=
  let r := putHandler validator ro (m type) slug body now
  (r.1, Function.update m type r.2)

/-! ## `loadData`: the startup integrity gate

`loadData` is modelled as a function of the outcome of reading and
`JSON.parse`-ing the type's backing file (the file system and the JSON
parser are external primitives).  A thrown error becomes an `Except.error`
carrying the message; every throw inside the inner `try` block — the parse
error, the structural error and the validation report alike — is caught by
`catch (parseError)` and re-wrapped in the JSON-syntax banner. -/

/-- Outcome of reading a type's backing file and `JSON.parse`-ing it. -/
inductive ParsedFile where
  | missing                   -- no file: empty cache, an empty file is persisted
  | blank                     -- the file reads back but `data.trim()` is empty
  | unparsable (msg : String) -- `JSON.parse` threw with this message
  | parsed (j : Json)         -- `JSON.parse` succeeded

/-- The wrapper the `catch (parseError)` branch applies to every error
thrown inside the inner `try` block. -/
def syntaxWrap (type msg : String) : String :=
  "Errore di sintassi JSON nel file " ++ type ++ ".json:\n" ++ msg
    ++ "\nControlla la sintassi del file e assicurati che sia un JSON valido."

/-- The structural error thrown when the parsed file is not an array. -/
def structureMsg (type : String) : String :=
  "Errore di struttura nel file " ++ type ++ ".json: il file deve contenere un array."

/-- The message of the TypeError Node raises for `item.id` when `item` is
`null` (the exact wording is irrelevant; it is not the enumerating
validation report). -/
def nullIdTypeError : String :=
  "TypeError: Cannot read properties of null (reading id)"

/-- One collected invalid record: its position, the interpolated
`item.id || "sconosciuto"` display, and the field errors. -/
structure InvalidItem where
  index : Nat
  idDisplay : String
  errors : List FieldError

/-- Template-string interpolation of the values an `id` property can hold. -/
def jsDisplay : Json → String
  | .null => "null"
  | .bool true => "true"
  | .bool false => "false"
  | .num n => toString n
  | .str s => s
  | .arr _ => ""
  | .obj _ => "[object Object]"

/-- The display `item.id || "sconosciuto"` of an invalid record (only
reached for non-`null` items; `item.id` on a non-object non-`null` value is
`undefined`). -/
def idDisplayOf : Json → String
  | .obj o =>
      match getField o "id" with
      | some v => if truthy (some v) then jsDisplay v else "sconosciuto"
      | none => "sconosciuto"
  | _ => "sconosciuto"

/-- The invalid records the validation loop collects, in file order. -/
def invalidItemsOf (validator : Json → VResult) (items : List Json) : List InvalidItem :=
  items.enum.filterMap (fun p =>
    let vr := validator p.2
    if vr.valid then none else some ⟨p.1, idDisplayOf p.2, vr.errors⟩)

/-- `formatValidationErrors`: group the issues by field (insertion order of
first appearance, messages appended in encounter order). -/
def addFieldError (acc : List (String × List String)) (e : FieldError) :
    List (String × List String) :=
  if acc.any (fun g => g.1 == e.field) then
    acc.map (fun g => if g.1 == e.field then (g.1, g.2 ++ [e.message]) else g)
  else acc ++ [(e.field, [e.message])]

/-- The grouped view `fieldErrors` that `formatValidationErrors` builds. -/
def groupErrorsByField (errors : List FieldError) : List (String × List String) :=
  errors.foldl addFieldError []

/-- One formatted line of `formatValidationErrors` (an empty field is
displayed as `Generale`). -/
def fieldLine (g : String × List String) : String :=
  "\n   • " ++ (if g.1 == "" then "Generale" else g.1) ++ ": "
    ++ String.intercalate ", " g.2

/-- `formatValidationErrors(errors)`: the grouped, field-prefixed lines. -/
def formatValidationErrors (errors : List FieldError) : String :=
  (groupErrorsByField errors).foldl (fun acc g => acc ++ fieldLine g) ""

/-- The per-record section of the startup validation report. -/
def invalidItemText (it : InvalidItem) : String :=
  "\n🚫 Elemento #" ++ toString (it.index + 1) ++ " (ID: " ++ it.idDisplay
    ++ ") non valido:" ++ formatValidationErrors it.errors ++ "\n"

/-- The full startup validation report for one type. -/
def validationReport (type : String) (items : List InvalidItem) : String :=
  "\n⛔ Errori di validazione nel file " ++ type
    ++ ".json. Il server non può partire.\n"
    ++ items.foldl (fun acc it => acc ++ invalidItemText it) ""
    ++ "\nCorreggi questi errori nel file database/" ++ type
    ++ ".json per avviare il server."

/-- Whether the validation loop crashes: pushing an invalid record evaluates
`item.id`, which throws a TypeError when the record is `null`. -/
def hasInvalidNull (validator : Json → VResult) (items : List Json) : Bool :=
  items.any (fun it =>
    !(validator it).valid &&
    (match it with | .null => true | _ => false))

/-- `loadData(type)` as a function of the parsed backing file: the populated
collection on success, the thrown message on failure.  A missing file also
persists an empty collection via `saveData` (see the serializer section). -/
def loadData (validator : Json → VResult) (type : String) (file : ParsedFile) :
    Except String (List Json) :=
  match file with
  | .missing => .ok []
  | .blank => .ok []
  | .unparsable m => .error (syntaxWrap type m)
  | .parsed j =>
      match j with
      | .arr items =>
          if hasInvalidNull validator items then
            .error (syntaxWrap type nullIdTypeError)
          else
            let invalidItems := invalidItemsOf validator items
            if invalidItems.isEmpty then .ok items
            else .error (syntaxWrap type (validationReport type invalidItems))
      | _ => .error (syntaxWrap type (structureMsg type))

/-- `Promise.all(loadPromises)` followed by `app.listen` on success and
`process.exit(1)` on rejection: the whole startup succeeds only when every
registered type loads, and aborts on the first failure. -/
def startup (registry : List (String × (Json → VResult)))
    (files : String → ParsedFile) : Except String (List (String × List Json)) :=
  registry.mapM (fun tv => (loadData tv.2 tv.1 (files tv.1)).map (fun c => (tv.1, c)))

/-! ## The write serializer: `saveData` / `processWriteQueue`

The mechanism for one resource type is embedded as a transition system over
an explicit scheduler state.  Node's single-threaded event loop runs each
synchronous stretch of code atomically; control changes hands only at the
`await fs.writeFile` suspension inside a task and at the `setImmediate`
callbacks, so the transitions below are exactly the atomic stretches of the
source:

* `stepMutateAndSave f`: a mutating handler runs — it applies `f` to the
  cached collection and calls `saveData`, whose executor pushes a task onto
  `writeQueues[type]` and, when the length is now 1, synchronously calls
  `processWriteQueue`, which shifts the task and runs its body up to the
  `await fs.writeFile` (so the write of `JSON.stringify(cache[type], null, 2)`
  is already in flight when the handler suspends);
* `stepWriteComplete k` / `stepWriteFail k`: the k-th pending `fs.writeFile`
  settles — on success the file now holds the written bytes; either way the
  task's `resolve()` runs (releasing the handler that awaits `saveData`) and
  `processWriteQueue` resumes after `await task()`, scheduling a
  `setImmediate` iteration when the queue is non-empty;
* `stepDrain`: a scheduled `setImmediate(processWriteQueue)` callback runs.

Task identities are consecutive naturals in enqueue order.  `resolvedTasks`
records the tasks whose `saveData` promise has resolved — only then can the
handler that awaits it send its HTTP response. -/

/-- Scheduler state of one resource type's write machinery. -/
structure SerializerState where
  cache : List Json                -- `cache[type]`
  queue : List Nat                 -- `writeQueues[type]` (ids of waiting tasks)
  inflight : List (Nat × String)   -- started `fs.writeFile` calls: id and bytes
  scheduled : Nat                  -- pending `setImmediate(processWriteQueue)` callbacks
  fileContent : Option String      -- bytes of the last completed write
  resolvedTasks : List Nat         -- ids whose `saveData` promise resolved
  writtenTasks : List Nat          -- ids whose write completed successfully
  failedTasks : List Nat           -- ids whose write failed (logged, then resolved)
  nextId : Nat                     -- id of the next task `saveData` creates

/-- The state at process start: empty cache, empty queue, nothing in
flight. -/
def wsInit : SerializerState :=
  ⟨[], [], [], 0, none, [], [], [], 0⟩

/-- A shifted task starts running: its body synchronously computes
`JSON.stringify(cache[type], null, 2)` and calls `fs.writeFile`, then
suspends at the `await`. -/
def startTask (s : SerializerState) (t : Nat) : SerializerState :=
  { s with inflight := s.inflight ++ [(t, serializeCollection s.cache)] }

/-- A mutating handler runs to its suspension point: the cache mutation `f`
is applied, `saveData` pushes a task, and — because the already-shifted
in-flight task is no longer counted — whenever the queue was empty the
length-1 check passes and `processWriteQueue` immediately shifts and starts
the new task. -/
def stepMutateAndSave (s : SerializerState) (f : List Json → List Json) :
    SerializerState :=
  let s1 := { s with cache := f s.cache, nextId := s.nextId + 1 }
  if s.queue.isEmpty then startTask s1 s.nextId
  else { s1 with queue := s.queue ++ [s.nextId] }

/-- The continuation shared by success and failure: after `await task()`
returns, `processWriteQueue` schedules a `setImmediate` iteration when the
queue is non-empty. -/
def afterTask (s : SerializerState) : SerializerState :=
  if s.queue.isEmpty then s else { s with scheduled := s.scheduled + 1 }

/-- The k-th pending `fs.writeFile` completes successfully: the backing file
now holds its bytes, `resolve()` runs, and the drain loop continues. -/
def stepWriteComplete (s : SerializerState) (k : Nat) : SerializerState :=
  match s.inflight[k]? with
  | none => s
  | some e =>
      afterTask { s with
        inflight := s.inflight.eraseIdx k,
        fileContent := some e.2,
        writtenTasks := s.writtenTasks ++ [e.1],
        resolvedTasks := s.resolvedTasks ++ [e.1] }

/-- The k-th pending `fs.writeFile` fails: the error is caught and logged,
the file keeps its previous content, `resolve()` still runs, and the drain
loop continues. -/
def stepWriteFail (s : SerializerState) (k : Nat) : SerializerState :=
  match s.inflight[k]? with
  | none => s
  | some e =>
      afterTask { s with
        inflight := s.inflight.eraseIdx k,
        failedTasks := s.failedTasks ++ [e.1],
        resolvedTasks := s.resolvedTasks ++ [e.1] }

/-- A scheduled `setImmediate(processWriteQueue)` callback runs: it returns
at once on an empty queue, otherwise it shifts the head task and starts
it. -/
def stepDrain (s : SerializerState) : SerializerState :=
  if s.scheduled == 0 then s
  else
    let s1 := { s with scheduled := s.scheduled - 1 }
    match s1.queue with
    | [] => s1
    | t :: rest => startTask { s1 with queue := rest } t

/-- The states the write machinery of one type can reach from process
start, under every interleaving the event loop allows. -/
inductive Reach : SerializerState → Prop where
  | init : Reach wsInit
  | mutate (s : SerializerState) (f : List Json → List Json) :
      Reach s → Reach (stepMutateAndSave s f)
  | complete (s : SerializerState) (k : Nat) :
      Reach s → Reach (stepWriteComplete s k)
  | failure (s : SerializerState) (k : Nat) :
      Reach s → Reach (stepWriteFail s k)
  | drain (s : SerializerState) :
      Reach s → Reach (stepDrain s)

/-! ## Object-operation lemmas -/

theorem getField_nil (k : String) : getField [] k = none := rfl

theorem getField_cons (kv : String × Json) (tl : Obj) (k : String) :
    getField (kv :: tl) k = if kv.1 = k then some kv.2 else getField tl k := by
  by_cases h : kv.1 = k
  · unfold getField
    rw [List.find?_cons_of_pos _ (by simpa using h)]
    simp [h]
  · unfold getField
    rw [List.find?_cons_of_neg _ (by simpa using h)]
    simp [h]

theorem deleteField_cons (kv : String × Json) (tl : Obj) (k : String) :
    deleteField (kv :: tl) k =
      if kv.1 = k then deleteField tl k else kv :: deleteField tl k := by
  unfold deleteField
  by_cases h : kv.1 = k <;> simp [List.filter_cons, h]

theorem getField_deleteField_self (o : Obj) (k : String) :
    getField (deleteField o k) k = none := by
  induction o with
  | nil => rfl
  | cons kv tl ih =>
      rw [deleteField_cons]
      by_cases h : kv.1 = k
      · simpa [h] using ih
      · rw [if_neg h, getField_cons, if_neg h]
        exact ih

theorem getField_deleteField_ne (o : Obj) (k kq : String) (h : kq ≠ k) :
    getField (deleteField o k) kq = getField o kq := by
  induction o with
  | nil => rfl
  | cons kv tl ih =>
      rw [deleteField_cons, getField_cons]
      by_cases hk : kv.1 = k
      · have hne : kv.1 ≠ kq := fun hc => h (by rw [← hc, hk])
        rw [if_pos hk, if_neg hne]
        exact ih
      · rw [if_neg hk, getField_cons]
        by_cases hq : kv.1 = kq
        · rw [if_pos hq, if_pos hq]
        · rw [if_neg hq, if_neg hq]
          exact ih

theorem getField_append (a b : Obj) (k : String) :
    getField (a ++ b) k = Option.or (getField a k) (getField b k) := by
  induction a with
  | nil => simp [getField_nil, Option.or]
  | cons kv tl ih =>
      rw [List.cons_append, getField_cons, getField_cons]
      by_cases h : kv.1 = k
      · simp [h, Option.or]
      · simp only [if_neg h]
        exact ih

theorem getField_setField_self (o : Obj) (k : String) (v : Json) :
    getField (setField o k v) k = some v := by
  unfold setField
  by_cases hs : (getField o k).isSome
  · rw [if_pos hs]
    induction o with
    | nil => simp [getField_nil] at hs
    | cons kv tl ih =>
        rw [List.map_cons]
        by_cases h : kv.1 = k
        · rw [getField_cons]
          simp [h]
        · rw [getField_cons] at hs
          rw [if_neg h] at hs
          have := ih hs
          rw [getField_cons]
          simp only [h, if_false, beq_iff_eq]
          simpa [h] using this
  · rw [if_neg hs, getField_append]
    rw [Option.not_isSome_iff_eq_none] at hs
    rw [hs]
    simp [getField_cons, Option.or]

theorem getField_mapReplace_ne (o : Obj) (k kq : String) (v : Json) (h : kq ≠ k) :
    getField (o.map (fun kv => if kv.1 == k then (kv.1, v) else kv)) kq
      = getField o kq := by
  induction o with
  | nil => rfl
  | cons kv tl ih =>
      by_cases hk : kv.1 = k
      · have h1 : (if (kv.1 == k) = true then (kv.1, v) else kv) = (kv.1, v) := by
          simp [hk]
        rw [List.map_cons, h1, getField_cons, getField_cons]
        have hne : kv.1 ≠ kq := fun hc => h (by rw [← hc, hk])
        rw [if_neg hne, if_neg hne]
        exact ih
      · have h1 : (if (kv.1 == k) = true then (kv.1, v) else kv) = kv := by
          simp [hk]
        rw [List.map_cons, h1, getField_cons, getField_cons]
        by_cases hq : kv.1 = kq
        · rw [if_pos hq, if_pos hq]
        · rw [if_neg hq, if_neg hq]
          exact ih

theorem getField_setField_ne (o : Obj) (k kq : String) (v : Json) (h : kq ≠ k) :
    getField (setField o k v) kq = getField o kq := by
  unfold setField
  by_cases hs : (getField o k).isSome
  · rw [if_pos hs]
    exact getField_mapReplace_ne o k kq v h
  · rw [if_neg hs, getField_append, getField_cons, getField_nil]
    rw [if_neg (fun hc : k = kq => h hc.symm)]
    cases getField o kq <;> rfl

theorem getField_mapOverride (a b : Obj) (k : String) :
    getField (a.map (fun kv =>
      match getField b kv.1 with
      | some v => (kv.1, v)
      | none => kv)) k
    = (getField a k).map (fun v => (getField b k).getD v) := by
  induction a with
  | nil => rfl
  | cons kv tl ih =>
      have hkey : (match getField b kv.1 with
          | some v => (kv.1, v)
          | none => kv).1 = kv.1 := by
        cases getField b kv.1 <;> rfl
      rw [List.map_cons, getField_cons, getField_cons, hkey]
      by_cases hk : kv.1 = k
      · rw [if_pos hk, if_pos hk, hk]
        cases getField b k <;> rfl
      · rw [if_neg hk, if_neg hk]
        exact ih

theorem getField_filterNotIn (a b : Obj) (k : String) :
    getField (b.filter (fun kv => (getField a kv.1).isNone)) k
    = if (getField a k).isNone then getField b k else none := by
  induction b with
  | nil => cases h : (getField a k).isNone <;> simp [getField_nil, h]
  | cons kv tl ih =>
      by_cases hk : kv.1 = k
      · by_cases hkeep : (getField a kv.1).isNone
        · rw [List.filter_cons_of_pos (by simpa using hkeep), getField_cons,
              if_pos hk, getField_cons, if_pos hk, if_pos (hk ▸ hkeep)]
        · rw [List.filter_cons_of_neg (by simpa using hkeep), ih,
              getField_cons]
          have : ¬(getField a k).isNone := hk ▸ hkeep
          rw [if_neg this, if_neg this]
      · by_cases hkeep : (getField a kv.1).isNone
        · rw [List.filter_cons_of_pos (by simpa using hkeep), getField_cons,
              if_neg hk, ih, getField_cons, if_neg hk]
        · rw [List.filter_cons_of_neg (by simpa using hkeep), ih, getField_cons,
              if_neg hk]

theorem getField_spreadMerge (a b : Obj) (k : String) :
    getField (spreadMerge a b) k = Option.or (getField b k) (getField a k) := by
  unfold spreadMerge
  rw [getField_append, getField_mapOverride, getField_filterNotIn]
  cases ha : getField a k <;> cases hb : getField b k <;> rfl

theorem getField_eq_none_of_notMem_keys (o : Obj) (k : String)
    (h : k ∉ o.map (fun kv => kv.1)) : getField o k = none := by
  induction o with
  | nil => rfl
  | cons kv tl ih =>
      rw [List.map_cons, List.mem_cons] at h
      push_neg at h
      rw [getField_cons, if_neg (fun hc => h.1 hc.symm)]
      exact ih h.2

theorem getField_cleanUpdateFields_slug (body : Obj) :
    getField (cleanUpdateFields body) "slug" = none := by
  unfold cleanUpdateFields
  rw [getField_deleteField_ne _ _ _ (by decide),
      getField_deleteField_ne _ _ _ (by decide),
      getField_deleteField_ne _ _ _ (by decide),
      getField_deleteField_self]

theorem getField_cleanUpdateFields_id (body : Obj) :
    getField (cleanUpdateFields body) "id" = none := by
  unfold cleanUpdateFields
  rw [getField_deleteField_ne _ _ _ (by decide),
      getField_deleteField_ne _ _ _ (by decide),
      getField_deleteField_self]

theorem getField_cleanUpdateFields_createdAt (body : Obj) :
    getField (cleanUpdateFields body) "createdAt" = none := by
  unfold cleanUpdateFields
  rw [getField_deleteField_ne _ _ _ (by decide), getField_deleteField_self]

theorem getField_cleanUpdateFields_updatedAt (body : Obj) :
    getField (cleanUpdateFields body) "updatedAt" = none := by
  unfold cleanUpdateFields
  rw [getField_deleteField_self]

theorem getField_cleanUpdateFields_other (body : Obj) (k : String)
    (h1 : k ≠ "slug") (h2 : k ≠ "id") (h3 : k ≠ "createdAt")
    (h4 : k ≠ "updatedAt") :
    getField (cleanUpdateFields body) k = getField body k := by
  unfold cleanUpdateFields
  rw [getField_deleteField_ne _ _ _ h4, getField_deleteField_ne _ _ _ h3,
      getField_deleteField_ne _ _ _ h2, getField_deleteField_ne _ _ _ h1]

theorem getField_mergedRecord_updatedAt (oldItem uf : Obj) (now : String) :
    getField (mergedRecord oldItem uf now) "updatedAt" = some (.str now) := by
  unfold mergedRecord
  rw [getField_setField_self]

theorem getField_mergedRecord_ne (oldItem uf : Obj) (now k : String)
    (h : k ≠ "updatedAt") :
    getField (mergedRecord oldItem uf now) k
      = Option.or (getField uf k) (getField oldItem k) := by
  unfold mergedRecord
  rw [getField_setField_ne _ _ _ _ h, getField_spreadMerge]

/-! ## Slug uniqueness -/

/-- Two cached records with slugs the duplicate check tells apart:
`a.slug === b.slug` is `false`. -/
def slugDistinct (a b : Json) : Prop :=
  jsStrictEq (slugOfItem a) (slugOfItem b) = false

/-- The invariant `slug values are unique within a resource type`, phrased
with the strict-equality comparison the handlers perform. -/
def slugsUnique (c : List Json) : Prop := c.Pairwise slugDistinct

theorem getField_postStamped_slug (fields : Obj) (now : String) :
    getField (postStamped fields now) "slug"
      = getField (deleteField fields "id") "slug" := by
  unfold postStamped
  rw [getField_setField_ne _ _ _ _ (by decide), getField_setField_ne _ _ _ _ (by decide)]

theorem slugOfItem_mergedRecord (oldItem : Json) (body : Obj) (now : String) :
    slugOfItem (.obj (mergedRecord (fieldsOf oldItem) (cleanUpdateFields body) now))
      = slugOfItem oldItem := by
  have h : slugOfItem (.obj (mergedRecord (fieldsOf oldItem) (cleanUpdateFields body) now))
      = getField (fieldsOf oldItem) "slug" := by
    show getField (mergedRecord (fieldsOf oldItem) (cleanUpdateFields body) now) "slug"
      = getField (fieldsOf oldItem) "slug"
    rw [getField_mergedRecord_ne _ _ _ _ (by decide), getField_cleanUpdateFields_slug]
    cases getField (fieldsOf oldItem) "slug" <;> rfl
  rw [h]
  cases oldItem <;> rfl

theorem pairwise_set {α : Type} {R : α → α → Prop} {l : List α} {i : Nat}
    {x : α} (hp : l.Pairwise R) (hi : i < l.length)
    (h1 : ∀ y, R l[i] y → R x y) (h2 : ∀ y, R y l[i] → R y x) :
    (l.set i x).Pairwise R := by
  induction l generalizing i with
  | nil => simp at hi
  | cons a tl ih =>
      rw [List.pairwise_cons] at hp
      cases i with
      | zero =>
          rw [List.set_cons_zero, List.pairwise_cons]
          exact ⟨fun y hy => h1 y (hp.1 y hy), hp.2⟩
      | succ j =>
          rw [List.set_cons_succ, List.pairwise_cons]
          have hj : j < tl.length := by
            simpa [Nat.succ_lt_succ_iff] using hi
          refine ⟨fun y hy => ?_, ih hp.2 hj h1 h2⟩
          rcases List.mem_or_eq_of_mem_set hy with hmem | rfl
          · exact hp.1 y hmem
          · exact h2 a (hp.1 tl[j] (List.getElem_mem hj))

theorem slugsUnique_set (l : List Json) (i : Nat) (x : Json)
    (hu : slugsUnique l) (hi : i < l.length)
    (hslug : slugOfItem x = slugOfItem l[i]) :
    slugsUnique (l.set i x) := by
  refine pairwise_set hu hi ?_ ?_
  · intro y hy
    unfold slugDistinct at hy ⊢
    rw [hslug]
    exact hy
  · intro y hy
    unfold slugDistinct at hy ⊢
    rw [hslug]
    exact hy

theorem slugsUnique_append_of_not_dup (c : List Json) (x : Json)
    (hu : slugsUnique c)
    (hdup : c.any (fun item => jsStrictEq (slugOfItem item) (slugOfItem x)) = false) :
    slugsUnique (c ++ [x]) := by
  unfold slugsUnique
  rw [List.pairwise_append]
  refine ⟨hu, List.pairwise_singleton _ _, ?_⟩
  intro a ha b hb
  rw [List.mem_singleton] at hb
  subst hb
  rw [List.any_eq_false] at hdup
  unfold slugDistinct
  have := hdup a ha
  simpa using this

theorem slugsUnique_filter (c : List Json) (p : Json → Bool)
    (hu : slugsUnique c) : slugsUnique (c.filter p) :=
  List.Pairwise.sublist (List.filter_sublist c) hu

/-! ## Handler branch characterizations -/

theorem postHandler_created (validator : Json → VResult) (c : List Json)
    (fields : Obj) (now : String)
    (hv : (validator (.obj fields)).valid = true)
    (hslug : truthy (getField (deleteField fields "id") "slug") = true)
    (hdup : c.any (fun item =>
      jsStrictEq (slugOfItem item) (getField (deleteField fields "id") "slug")) = false) :
    postHandler validator c (.obj fields) now
      = (.created (postStamped fields now), c ++ [.obj (postStamped fields now)]) := by
  unfold postHandler
  simp [hv, hslug, hdup]

theorem postHandler_dup (validator : Json → VResult) (c : List Json)
    (fields : Obj) (now : String)
    (hv : (validator (.obj fields)).valid = true)
    (hslug : truthy (getField (deleteField fields "id") "slug") = true)
    (hdup : c.any (fun item =>
      jsStrictEq (slugOfItem item) (getField (deleteField fields "id") "slug")) = true) :
    postHandler validator c (.obj fields) now = (.slugEsistente, c) := by
  unfold postHandler
  simp [hv, hslug, hdup]

theorem putHandler_notFound (validator : Json → VResult) (ro : List String)
    (c : List Json) (slug : String) (body : Obj) (now : String)
    (hIdx : c.findIdx? (fun p => itemSlugIs p slug) = none) :
    putHandler validator ro c slug body now = (.notFound, c) := by
  unfold putHandler
  rw [hIdx]

theorem putHandler_readonly (validator : Json → VResult) (ro : List String)
    (c : List Json) (slug : String) (body : Obj) (now : String) (i : Nat)
    (hIdx : c.findIdx? (fun p => itemSlugIs p slug) = some i)
    (hro : ((cleanUpdateFields body).map (fun kv => kv.1)).filter
      (fun k => ro.contains k) ≠ []) :
    putHandler validator ro c slug body now
      = (.readonlyViolation (((cleanUpdateFields body).map (fun kv => kv.1)).filter
          (fun k => ro.contains k)), c) := by
  have h1 : ((((cleanUpdateFields body).map (fun kv => kv.1)).filter
      (fun k => ro.contains k)).isEmpty) = false := by
    cases hE : ((((cleanUpdateFields body).map (fun kv => kv.1)).filter
      (fun k => ro.contains k)).isEmpty)
    · rfl
    · exact absurd (List.isEmpty_iff.mp hE) hro
  unfold putHandler
  rw [hIdx]
  simp only []
  rw [h1, Bool.not_false, if_pos rfl]

theorem putHandler_invalid (validator : Json → VResult) (ro : List String)
    (c : List Json) (slug : String) (body : Obj) (now : String) (i : Nat)
    (hIdx : c.findIdx? (fun p => itemSlugIs p slug) = some i)
    (hro : ((cleanUpdateFields body).map (fun kv => kv.1)).filter
      (fun k => ro.contains k) = [])
    (hlen : (cleanUpdateFields body).length > 0)
    (hv : (validator (.obj (spreadMerge (fieldsOf (c.getD i .null))
      (cleanUpdateFields body)))).valid = false) :
    putHandler validator ro c slug body now
      = (.invalidData (validator (.obj (spreadMerge (fieldsOf (c.getD i .null))
          (cleanUpdateFields body)))).errors, c) := by
  have h0 : ((((cleanUpdateFields body).map (fun kv => kv.1)).filter
      (fun k => ro.contains k)).isEmpty) = true := List.isEmpty_iff.mpr hro
  unfold putHandler
  rw [hIdx]
  simp only []
  rw [h0, Bool.not_true, if_neg Bool.false_ne_true, if_pos hlen, hv,
      Bool.not_false, if_pos rfl]

theorem putHandler_updated (validator : Json → VResult) (ro : List String)
    (c : List Json) (slug : String) (body : Obj) (now : String) (i : Nat)
    (hIdx : c.findIdx? (fun p => itemSlugIs p slug) = some i)
    (hro : ((cleanUpdateFields body).map (fun kv => kv.1)).filter
      (fun k => ro.contains k) = [])
    (hv : (cleanUpdateFields body).length > 0 →
      (validator (.obj (spreadMerge (fieldsOf (c.getD i .null))
        (cleanUpdateFields body)))).valid = true) :
    putHandler validator ro c slug body now
      = (.updated (mergedRecord (fieldsOf (c.getD i .null)) (cleanUpdateFields body) now),
         c.set i (.obj (mergedRecord (fieldsOf (c.getD i .null)) (cleanUpdateFields body) now))) := by
  have h0 : ((((cleanUpdateFields body).map (fun kv => kv.1)).filter
      (fun k => ro.contains k)).isEmpty) = true := List.isEmpty_iff.mpr hro
  unfold putHandler
  rw [hIdx]
  simp only []
  rw [h0, Bool.not_true, if_neg Bool.false_ne_true]
  by_cases hlen : (cleanUpdateFields body).length > 0
  · rw [if_pos hlen, hv hlen, Bool.not_true, if_neg Bool.false_ne_true]
  · rw [if_neg hlen]

theorem deleteHandler_notFound (c : List Json) (itemId : Int)
    (h : c.filter (fun p => keptByDelete p itemId) = c) :
    deleteHandler c itemId = (.notFound, c) := by
  unfold deleteHandler
  simp [h]

/-! ## Loader lemmas -/

theorem mem_invalidItemsOf (validator : Json → VResult) (items : List Json)
    (i : Nat) (hi : i < items.length)
    (hv : (validator items[i]).valid = false) :
    (⟨i, idDisplayOf items[i], (validator items[i]).errors⟩ : InvalidItem)
      ∈ invalidItemsOf validator items := by
  unfold invalidItemsOf
  rw [List.mem_filterMap]
  refine ⟨(i, items[i]), ?_, ?_⟩
  · rw [List.mk_mem_enum_iff_getElem?]
    exact List.getElem?_eq_getElem hi
  · simp only [hv]
    rfl

theorem invalidItemsOf_sound (validator : Json → VResult) (items : List Json)
    (it : InvalidItem) (h : it ∈ invalidItemsOf validator items) :
    ∃ hlt : it.index < items.length,
      (validator items[it.index]).valid = false
      ∧ it.errors = (validator items[it.index]).errors
      ∧ it.idDisplay = idDisplayOf items[it.index] := by
  unfold invalidItemsOf at h
  rw [List.mem_filterMap] at h
  obtain ⟨p, hp, hf⟩ := h
  obtain ⟨j, x⟩ := p
  rw [List.mk_mem_enum_iff_getElem?] at hp
  have hj : j < items.length := by
    by_contra hge
    rw [List.getElem?_eq_none (by omega)] at hp
    cases hp
  have hx : items[j] = x := by
    rw [List.getElem?_eq_getElem hj] at hp
    injection hp
  simp only [] at hf
  cases hval : (validator x).valid
  · rw [hval] at hf
    simp only [Bool.false_eq_true, if_false] at hf
    injection hf with hf2
    subst hf2
    refine ⟨hj, ?_, ?_, ?_⟩
    · rw [hx]; exact hval
    · rw [hx]
    · rw [hx]
  · rw [hval] at hf
    simp at hf

theorem loadData_error_of_invalid (validator : Json → VResult)
    (type : String) (items : List Json)
    (hnull : hasInvalidNull validator items = false)
    (hex : (invalidItemsOf validator items).isEmpty = false) :
    loadData validator type (.parsed (.arr items))
      = .error (syntaxWrap type (validationReport type (invalidItemsOf validator items))) := by
  have h : loadData validator type (.parsed (.arr items))
      = if hasInvalidNull validator items then .error (syntaxWrap type nullIdTypeError)
        else if (invalidItemsOf validator items).isEmpty then .ok items
        else .error (syntaxWrap type (validationReport type (invalidItemsOf validator items))) := rfl
  rw [h, hnull, if_neg Bool.false_ne_true, hex, if_neg Bool.false_ne_true]

theorem loadData_error_of_unparsable (validator : Json → VResult)
    (type msg : String) :
    loadData validator type (.unparsable msg) = .error (syntaxWrap type msg) := rfl

theorem loadData_error_of_not_array (validator : Json → VResult)
    (type : String) (j : Json) (h : ∀ l, j ≠ .arr l) :
    loadData validator type (.parsed j) = .error (syntaxWrap type (structureMsg type)) := by
  unfold loadData
  cases j with
  | arr l => exact absurd rfl (h l)
  | null => rfl
  | bool b => rfl
  | num n => rfl
  | str s => rfl
  | obj o => rfl

theorem startup_error_of_mem (registry : List (String × (Json → VResult)))
    (files : String → ParsedFile) (t : String) (v : Json → VResult)
    (hmem : (t, v) ∈ registry) (e : String)
    (herr : loadData v t (files t) = .error e) :
    ∃ m, startup registry files = .error m := by
  unfold startup
  induction registry with
  | nil => cases hmem
  | cons hd tl ih =>
      obtain ⟨t1, v1⟩ := hd
      rw [List.mapM_cons]
      rcases List.mem_cons.mp hmem with heq | hmem2
      · rw [Prod.mk.injEq] at heq
        obtain ⟨h1, h2⟩ := heq
        subst h1
        subst h2
        refine ⟨e, ?_⟩
        show Except.bind ((loadData v t (files t)).map (fun c => (t, c))) _ = _
        rw [herr]
        rfl
      · cases hload : loadData v1 t1 (files t1) with
        | error e2 => exact ⟨e2, rfl⟩
        | ok c1 =>
            obtain ⟨m, hm⟩ := ih hmem2
            refine ⟨m, ?_⟩
            rw [hm]
            rfl

/-! ## Grouping lemmas for the validation report -/

theorem addFieldError_mono (acc : List (String × List String)) (e : FieldError)
    (g : String × List String) (hg : g ∈ acc) :
    ∃ g2 ∈ addFieldError acc e, g2.1 = g.1 ∧ ∀ m ∈ g.2, m ∈ g2.2 := by
  unfold addFieldError
  by_cases hany : acc.any (fun g => g.1 == e.field)
  · rw [if_pos hany]
    by_cases hf : g.1 = e.field
    · refine ⟨(g.1, g.2 ++ [e.message]), ?_, rfl, ?_⟩
      · have := List.mem_map_of_mem
          (fun g0 => if g0.1 == e.field then (g0.1, g0.2 ++ [e.message]) else g0) hg
        simpa [hf] using this
      · intro m hm
        exact List.mem_append_left _ hm
    · refine ⟨g, ?_, rfl, fun m hm => hm⟩
      have := List.mem_map_of_mem
        (fun g0 => if g0.1 == e.field then (g0.1, g0.2 ++ [e.message]) else g0) hg
      simpa [hf] using this
  · rw [if_neg hany]
    exact ⟨g, List.mem_append_left _ hg, rfl, fun m hm => hm⟩

theorem addFieldError_adds (acc : List (String × List String)) (e : FieldError) :
    ∃ g ∈ addFieldError acc e, g.1 = e.field ∧ e.message ∈ g.2 := by
  unfold addFieldError
  by_cases hany : acc.any (fun g => g.1 == e.field)
  · rw [if_pos hany]
    rw [List.any_eq_true] at hany
    obtain ⟨g0, hg0, hf0⟩ := hany
    rw [beq_iff_eq] at hf0
    refine ⟨(g0.1, g0.2 ++ [e.message]), ?_, hf0, ?_⟩
    · have := List.mem_map_of_mem
        (fun g1 => if g1.1 == e.field then (g1.1, g1.2 ++ [e.message]) else g1) hg0
      simpa [hf0] using this
    · exact List.mem_append_right _ (List.mem_singleton_self _)
  · rw [if_neg hany]
    exact ⟨(e.field, [e.message]), List.mem_append_right _ (List.mem_singleton_self _),
      rfl, List.mem_singleton_self _⟩

theorem foldl_addFieldError_mono (errs : List FieldError)
    (acc : List (String × List String)) (g : String × List String)
    (hg : g ∈ acc) :
    ∃ g2 ∈ errs.foldl addFieldError acc, g2.1 = g.1 ∧ ∀ m ∈ g.2, m ∈ g2.2 := by
  induction errs generalizing acc g with
  | nil => exact ⟨g, hg, rfl, fun m hm => hm⟩
  | cons e tl ih =>
      rw [List.foldl_cons]
      obtain ⟨g1, hg1, hfield1, hsub1⟩ := addFieldError_mono acc e g hg
      obtain ⟨g2, hg2, hfield2, hsub2⟩ := ih (addFieldError acc e) g1 hg1
      exact ⟨g2, hg2, hfield2.trans hfield1, fun m hm => hsub2 m (hsub1 m hm)⟩

theorem mem_groupErrorsByField (errs : List FieldError) (e : FieldError)
    (he : e ∈ errs) :
    ∃ g ∈ groupErrorsByField errs, g.1 = e.field ∧ e.message ∈ g.2 := by
  unfold groupErrorsByField
  have main : ∀ (l : List FieldError) (acc : List (String × List String)),
      e ∈ l → ∃ g ∈ l.foldl addFieldError acc, g.1 = e.field ∧ e.message ∈ g.2 := by
    intro l
    induction l with
    | nil => intro acc h; cases h
    | cons e0 tl ih =>
        intro acc h
        rw [List.foldl_cons]
        rcases List.mem_cons.mp h with rfl | htl
        · obtain ⟨g1, hg1, hfield1, hmem1⟩ := addFieldError_adds acc e
          obtain ⟨g2, hg2, hfield2, hsub2⟩ :=
            foldl_addFieldError_mono tl (addFieldError acc e) g1 hg1
          exact ⟨g2, hg2, hfield2.trans hfield1, hsub2 _ hmem1⟩
        · exact ih (addFieldError acc e0) htl
  exact main errs [] he

/-! ## Serializer step lemmas -/

theorem startTask_taskFields (s : SerializerState) (t : Nat) :
    (startTask s t).resolvedTasks = s.resolvedTasks
    ∧ (startTask s t).writtenTasks = s.writtenTasks
    ∧ (startTask s t).failedTasks = s.failedTasks := by
  unfold startTask
  exact ⟨rfl, rfl, rfl⟩

theorem stepMutateAndSave_taskFields (s : SerializerState) (f : List Json → List Json) :
    (stepMutateAndSave s f).resolvedTasks = s.resolvedTasks
    ∧ (stepMutateAndSave s f).writtenTasks = s.writtenTasks
    ∧ (stepMutateAndSave s f).failedTasks = s.failedTasks := by
  unfold stepMutateAndSave startTask
  by_cases h : s.queue.isEmpty <;> simp [h]

theorem stepDrain_taskFields (s : SerializerState) :
    (stepDrain s).resolvedTasks = s.resolvedTasks
    ∧ (stepDrain s).writtenTasks = s.writtenTasks
    ∧ (stepDrain s).failedTasks = s.failedTasks := by
  unfold stepDrain startTask
  by_cases h : s.scheduled == 0
  · simp [h]
  · cases s.queue <;> simp [h]

theorem afterTask_taskFields (s : SerializerState) :
    (afterTask s).resolvedTasks = s.resolvedTasks
    ∧ (afterTask s).writtenTasks = s.writtenTasks
    ∧ (afterTask s).failedTasks = s.failedTasks := by
  unfold afterTask
  by_cases h : s.queue.isEmpty <;> simp [h]

theorem stepWriteComplete_of_none (s : SerializerState) (k : Nat)
    (hk : s.inflight[k]? = none) : stepWriteComplete s k = s := by
  unfold stepWriteComplete
  rw [hk]

theorem stepWriteFail_of_none (s : SerializerState) (k : Nat)
    (hk : s.inflight[k]? = none) : stepWriteFail s k = s := by
  unfold stepWriteFail
  rw [hk]

theorem stepWriteComplete_taskFields (s : SerializerState) (k : Nat)
    (e : Nat × String) (hk : s.inflight[k]? = some e) :
    (stepWriteComplete s k).resolvedTasks = s.resolvedTasks ++ [e.1]
    ∧ (stepWriteComplete s k).writtenTasks = s.writtenTasks ++ [e.1]
    ∧ (stepWriteComplete s k).failedTasks = s.failedTasks := by
  unfold stepWriteComplete afterTask
  rw [hk]
  by_cases hq : s.queue.isEmpty <;> simp [hq]

theorem stepWriteFail_taskFields (s : SerializerState) (k : Nat)
    (e : Nat × String) (hk : s.inflight[k]? = some e) :
    (stepWriteFail s k).resolvedTasks = s.resolvedTasks ++ [e.1]
    ∧ (stepWriteFail s k).writtenTasks = s.writtenTasks
    ∧ (stepWriteFail s k).failedTasks = s.failedTasks ++ [e.1] := by
  unfold stepWriteFail afterTask
  rw [hk]
  by_cases hq : s.queue.isEmpty <;> simp [hq]

/-- Core of the response-ordering argument: in every reachable scheduler
state, a task whose `saveData` promise has resolved (the precondition for
its handler to respond) has already had its `fs.writeFile` settle — succeed
or fail.  The induction is over the event-loop interleavings. -/
theorem resolved_tasks_settled (s : SerializerState) (h : Reach s) :
    ∀ t ∈ s.resolvedTasks, t ∈ s.writtenTasks ∨ t ∈ s.failedTasks := by
  induction h with
  | init => intro t ht; cases ht
  | mutate s f hr ih =>
      intro t ht
      obtain ⟨h1, h2, h3⟩ := stepMutateAndSave_taskFields s f
      rw [h1] at ht
      rw [h2, h3]
      exact ih t ht
  | complete s k hr ih =>
      intro t ht
      cases hk : s.inflight[k]? with
      | none =>
          rw [stepWriteComplete_of_none s k hk] at ht ⊢
          exact ih t ht
      | some e =>
          obtain ⟨h1, h2, h3⟩ := stepWriteComplete_taskFields s k e hk
          rw [h1] at ht
          rw [h2, h3]
          rcases List.mem_append.mp ht with hold | hnew
          · rcases ih t hold with hw | hf
            · exact Or.inl (List.mem_append_left _ hw)
            · exact Or.inr hf
          · exact Or.inl (List.mem_append_right _ hnew)
  | failure s k hr ih =>
      intro t ht
      cases hk : s.inflight[k]? with
      | none =>
          rw [stepWriteFail_of_none s k hk] at ht ⊢
          exact ih t ht
      | some e =>
          obtain ⟨h1, h2, h3⟩ := stepWriteFail_taskFields s k e hk
          rw [h1] at ht
          rw [h2, h3]
          rcases List.mem_append.mp ht with hold | hnew
          · rcases ih t hold with hw | hf
            · exact Or.inl hw
            · exact Or.inr (List.mem_append_left _ hf)
          · exact Or.inr (List.mem_append_right _ hnew)
  | drain s hr ih =>
      intro t ht
      obtain ⟨h1, h2, h3⟩ := stepDrain_taskFields s
      rw [h1] at ht
      rw [h2, h3]
      exact ih t ht

/-! ## Concrete records and event-loop traces -/

/-- A minimal record used by the scheduler traces. -/
def recA : Json := .obj [("slug", .str "a")]

/-- A second record with a distinct slug. -/
def recB : Json := .obj [("slug", .str "b")]

/-- The cache mutation of a handler that appends `recA`. -/
def pushRecA : List Json → List Json := fun c => c ++ [recA]

/-- The cache mutation of a handler that appends `recB`. -/
def pushRecB : List Json → List Json := fun c => c ++ [recB]

/-- First handler runs: `recA` is cached and task 0's write of `[recA]`
goes in flight. -/
def overlapS1 : SerializerState := stepMutateAndSave wsInit pushRecA

/-- Second handler runs while task 0's write is still pending: `recB` is
cached and task 1's write of `[recA, recB]` goes in flight as well. -/
def overlapS2 : SerializerState := stepMutateAndSave overlapS1 pushRecB

/-- The younger write (task 1) completes first. -/
def overlapS3 : SerializerState := stepWriteComplete overlapS2 1

/-- The older write (task 0) completes last: the file ends at task 0's
stale snapshot. -/
def overlapS4 : SerializerState := stepWriteComplete overlapS3 0

/-! ## Claims C1, C2, C3, C9 -/

/-- C1: the spec claims at most one persistence task (file write) is ever in
flight per resource type.  The code violates this: `processWriteQueue`
shifts a task out of the queue *before* executing it, so while its
`fs.writeFile` is pending the queue is empty again, the next `saveData`'s
`length === 1` check passes, and a second write is started concurrently.
This theorem exhibits the reachable state after two back-to-back mutations
in which the queue is empty yet two `fs.writeFile` calls are in flight for
the same type. -/
theorem c1_two_concurrent_writes :
    Reach overlapS2 ∧ overlapS2.queue = [] ∧ overlapS2.inflight.length = 2 := by
  refine ⟨?_, rfl, rfl⟩
  exact Reach.mutate overlapS1 pushRecB (Reach.mutate wsInit pushRecA Reach.init)

/-- C2: the spec claims per-type tasks execute strictly FIFO and the final
file content always reflects the last-enqueued task.  Because two writes
can be in flight concurrently (see the C1 analysis), their completion order
is up to the file system: in this interleaving both tasks complete, the
queue is drained, yet the backing file holds task 0's stale snapshot
`[recA]` while the cache (which task 1 wrote) is `[recA, recB]`. -/
theorem c2_stale_snapshot_wins :
    Reach overlapS4
    ∧ overlapS4.queue = [] ∧ overlapS4.inflight = [] ∧ overlapS4.scheduled = 0
    ∧ overlapS4.writtenTasks = [1, 0]
    ∧ overlapS4.cache = [recA, recB]
    ∧ overlapS4.fileContent = some (serializeCollection [recA])
    ∧ serializeCollection [recA] ≠ serializeCollection [recA, recB] := by
  refine ⟨?_, rfl, rfl, rfl, rfl, rfl, rfl, ?_⟩
  · exact Reach.complete overlapS3 0 (Reach.complete overlapS2 1
      (Reach.mutate overlapS1 pushRecB (Reach.mutate wsInit pushRecA Reach.init)))
  · intro hEq
    have h1 : serializeCollection [recA] = "[\n  \x7b\n    \"slug\": \"a\"\n  \x7d\n]" := by
      simp [serializeCollection, recA, jsonStr, jsonStrElems, jsonStrFields, indentStr]
    have h2 : serializeCollection [recA, recB]
        = "[\n  \x7b\n    \"slug\": \"a\"\n  \x7d,\n  \x7b\n    \"slug\": \"b\"\n  \x7d\n]" := by
      simp [serializeCollection, recA, recB, jsonStr, jsonStrElems, jsonStrFields, indentStr]
    rw [h1, h2] at hEq
    exact absurd hEq (by decide)

/-- C3 (amended): the HTTP response of a mutating request does *not* return
as soon as the cache mutation is applied — every mutating handler does
`await saveData(type)`, and `saveData`'s promise resolves only inside the
queued task, after its `fs.writeFile` has settled.  So in every reachable
state, a task whose promise has resolved (the precondition for its
handler's response) has a settled write: the response waits for the flush
attempt. -/
theorem c3_response_only_after_flush (s : SerializerState) (h : Reach s)
    (t : Nat) (ht : t ∈ s.resolvedTasks) :
    t ∈ s.writtenTasks ∨ t ∈ s.failedTasks :=
  resolved_tasks_settled s h t ht

/-- C3 witness: a concrete trace (one mutation, then its write completes)
reaching a state with a resolved task, to which the theorem applies. -/
theorem c3_response_only_after_flush_witness :
    0 ∈ (stepWriteComplete (stepMutateAndSave wsInit pushRecA) 0).writtenTasks
    ∨ 0 ∈ (stepWriteComplete (stepMutateAndSave wsInit pushRecA) 0).failedTasks :=
  c3_response_only_after_flush (stepWriteComplete (stepMutateAndSave wsInit pushRecA) 0)
    (Reach.complete (stepMutateAndSave wsInit pushRecA) 0
      (Reach.mutate wsInit pushRecA Reach.init))
    0 (List.mem_singleton_self 0)

/-- C3 counterexample: the claim as stated says the response returns as
soon as the cache mutation is applied, without waiting for the flush.  At
the state immediately after a mutating handler has run (cache mutated,
task enqueued and its write started), no `saveData` promise has resolved —
the handler is still suspended in `await saveData(type)` and cannot have
sent its response — and no flush has completed. -/
theorem c3_counterexample_response_not_immediate :
    (stepMutateAndSave wsInit pushRecA).cache = [recA]
    ∧ (stepMutateAndSave wsInit pushRecA).resolvedTasks = []
    ∧ (stepMutateAndSave wsInit pushRecA).fileContent = none :=
  ⟨rfl, rfl, rfl⟩

/-- C9: persisting the same cache state twice in a row produces
byte-identical file contents.  From any state with an idle queue, two
`saveData` calls with no cache change in between put two tasks in flight
carrying the same serialized bytes — `JSON.stringify(cache[type], null, 2)`
of the unchanged collection — and after each write completes the file holds
those same bytes. -/
theorem c9_idempotent_persistence (s : SerializerState)
    (hq : s.queue = []) (hi : s.inflight = []) :
    (stepMutateAndSave (stepMutateAndSave s id) id).inflight
      = [(s.nextId, serializeCollection s.cache),
         (s.nextId + 1, serializeCollection s.cache)]
    ∧ (stepWriteComplete (stepMutateAndSave (stepMutateAndSave s id) id) 0).fileContent
      = some (serializeCollection s.cache)
    ∧ (stepWriteComplete (stepWriteComplete (stepMutateAndSave (stepMutateAndSave s id) id) 0) 0).fileContent
      = some (serializeCollection s.cache)
    ∧ (stepWriteComplete (stepWriteComplete (stepMutateAndSave (stepMutateAndSave s id) id) 0) 0).inflight
      = [] := by
  unfold stepMutateAndSave startTask stepWriteComplete afterTask
  simp [hq, hi]

/-- C9 witness: the theorem applied at the initial state. -/
theorem c9_idempotent_persistence_witness :
    (stepWriteComplete (stepWriteComplete (stepMutateAndSave (stepMutateAndSave wsInit id) id) 0) 0).fileContent
      = some (serializeCollection wsInit.cache) :=
  (c9_idempotent_persistence wsInit rfl rfl).2.2.1

/-! ## Concrete game records -/

/-- A fixed ISO timestamp used by concrete instantiations. -/
def nowIso : String := "2024-01-01T00:00:00.000Z"

/-- A schema-valid game body with the given slug. -/
def gameFields (s : String) : Obj :=
  [("title", .str "T"), ("slug", .str s), ("category", .str "C"),
   ("releaseYear", .num 2000), ("developer", .str "D"), ("rating", .str "R"),
   ("description", .str "Desc"), ("price", .str "10"),
   ("systemRequirements", .null), ("imagesExtra", .arr []), ("tags", .arr []),
   ("links", .null)]

/-- A schema-valid game body that also carries a client-supplied `id`. -/
def gameWithId : Obj := ("id", .num 7) :: gameFields "half-life-2"

/-! ## Claim C10 -/

/-- C10: the POST handler deletes any client-supplied `id` and never
assigns one, so every record created through the public create endpoint has
no `id` field at all; consequently, on a collection whose records all lack
an `id` (as is the case when every record was created in the current
process run), DELETE with any numeric id removes nothing and returns 404
with the collection unchanged. -/
theorem c10_create_strips_id_delete_misses (validator : Json → VResult)
    (c : List Json) (fields : Obj) (now : String)
    (hv : (validator (.obj fields)).valid = true)
    (hslug : truthy (getField (deleteField fields "id") "slug") = true)
    (hdup : c.any (fun item =>
      jsStrictEq (slugOfItem item) (getField (deleteField fields "id") "slug")) = false) :
    postHandler validator c (.obj fields) now
      = (.created (postStamped fields now), c ++ [.obj (postStamped fields now)])
    ∧ getField (postStamped fields now) "id" = none
    ∧ idOfItem (.obj (postStamped fields now)) = none
    ∧ ∀ (l : List Json) (itemId : Int),
        (∀ item ∈ l, idOfItem item = none) →
        deleteHandler l itemId = (.notFound, l) := by
  refine ⟨postHandler_created validator c fields now hv hslug hdup, ?_, ?_, ?_⟩
  · unfold postStamped
    rw [getField_setField_ne _ _ _ _ (by decide),
        getField_setField_ne _ _ _ _ (by decide), getField_deleteField_self]
  · show getField (postStamped fields now) "id" = none
    unfold postStamped
    rw [getField_setField_ne _ _ _ _ (by decide),
        getField_setField_ne _ _ _ _ (by decide), getField_deleteField_self]
  · intro l itemId hids
    apply deleteHandler_notFound
    apply List.filter_eq_self.mpr
    intro item hitem
    unfold keptByDelete
    rw [hids item hitem]
    rfl

/-- C10 witness: a concrete create (body carrying a client `id`) followed
by a DELETE that misses. -/
theorem c10_create_strips_id_delete_misses_witness :
    postHandler validateGame [] (.obj gameWithId) nowIso
      = (.created (postStamped gameWithId nowIso), [.obj (postStamped gameWithId nowIso)])
    ∧ getField (postStamped gameWithId nowIso) "id" = none
    ∧ deleteHandler [.obj (postStamped gameWithId nowIso)] 7
      = (.notFound, [.obj (postStamped gameWithId nowIso)]) := by
  obtain ⟨h1, h2, h3, h4⟩ :=
    c10_create_strips_id_delete_misses validateGame [] gameWithId nowIso rfl rfl rfl
  refine ⟨h1, h2, h4 [.obj (postStamped gameWithId nowIso)] 7 ?_⟩
  intro item hitem
  rw [List.mem_singleton] at hitem
  subst hitem
  exact h3

/-! ## Claim C4 -/

/-- C4 counterexample: the claim says every valid create returns a record
carrying a server-assigned numeric identifier.  A concrete valid create —
whose body even supplies `id: 7` — is accepted, yet the stored and returned
record has no `id` field at all: the handler deletes the client `id` and
assigns none. -/
theorem c4_counterexample_no_numeric_id :
    (postHandler validateGame [] (.obj gameWithId) nowIso).1
      = .created (postStamped gameWithId nowIso)
    ∧ getField (postStamped gameWithId nowIso) "id" = none := by
  constructor
  · rw [postHandler_created validateGame [] gameWithId nowIso rfl rfl rfl]
  · unfold postStamped
    rw [getField_setField_ne _ _ _ _ (by decide),
        getField_setField_ne _ _ _ _ (by decide), getField_deleteField_self]

/-- C4 (amended): the record stored and returned by a valid create carries
*no* numeric identifier (any client-supplied `id` is removed and none is
assigned); its slug — taken from the body — uniquely identifies it within
its type: duplicates are rejected with 409 beforehand, so appending the new
record preserves slug uniqueness, and the stamped record keeps the body's
slug with both timestamps set to the same server instant. -/
theorem c4_created_record_identified_by_slug (validator : Json → VResult)
    (c : List Json) (fields : Obj) (now : String)
    (hv : (validator (.obj fields)).valid = true)
    (hslug : truthy (getField (deleteField fields "id") "slug") = true)
    (hdup : c.any (fun item =>
      jsStrictEq (slugOfItem item) (getField (deleteField fields "id") "slug")) = false)
    (hu : slugsUnique c) :
    postHandler validator c (.obj fields) now
      = (.created (postStamped fields now), c ++ [.obj (postStamped fields now)])
    ∧ getField (postStamped fields now) "id" = none
    ∧ getField (postStamped fields now) "slug" = getField (deleteField fields "id") "slug"
    ∧ slugsUnique (c ++ [.obj (postStamped fields now)])
    ∧ getField (postStamped fields now) "createdAt" = some (.str now)
    ∧ getField (postStamped fields now) "updatedAt" = some (.str now) := by
  refine ⟨postHandler_created validator c fields now hv hslug hdup, ?_,
    getField_postStamped_slug fields now, ?_, ?_, ?_⟩
  · unfold postStamped
    rw [getField_setField_ne _ _ _ _ (by decide),
        getField_setField_ne _ _ _ _ (by decide), getField_deleteField_self]
  · apply slugsUnique_append_of_not_dup c _ hu
    rw [show slugOfItem (.obj (postStamped fields now))
      = getField (deleteField fields "id") "slug" from getField_postStamped_slug fields now]
    exact hdup
  · unfold postStamped
    rw [getField_setField_ne _ _ _ _ (by decide), getField_setField_self]
  · unfold postStamped
    rw [getField_setField_self]

/-- C4 witness: the amended theorem at a concrete valid create. -/
theorem c4_created_record_identified_by_slug_witness :
    postHandler validateGame [] (.obj gameWithId) nowIso
      = (.created (postStamped gameWithId nowIso), [.obj (postStamped gameWithId nowIso)])
    ∧ slugsUnique [.obj (postStamped gameWithId nowIso)] := by
  obtain ⟨h1, h2, h3, h4, h5, h6⟩ :=
    c4_created_record_identified_by_slug validateGame [] gameWithId nowIso rfl rfl rfl
      List.Pairwise.nil
  exact ⟨h1, h4⟩

/-! ## Claim C5 -/

/-- C5: for an update-by-slug that finds its record, (a) if the effective
update fields (the body minus the always-ignored `slug`/`id`/`createdAt`/
`updatedAt`) touch any field declared read-only for the type, the handler
fails with the readonly violation (400); (b) otherwise, if at least one
field remains and the merged record fails schema validation, it fails with
the validation error (400).  In both failure cases the returned collection
is exactly the input collection: the stored record and the rest of the
collection are unchanged. -/
theorem c5_put_failures_leave_cache_unchanged (validator : Json → VResult)
    (ro : List String) (c : List Json) (slug : String) (body : Obj)
    (now : String) (i : Nat)
    (hIdx : c.findIdx? (fun p => itemSlugIs p slug) = some i) :
    (((cleanUpdateFields body).map (fun kv => kv.1)).filter
        (fun k => ro.contains k) ≠ [] →
      putHandler validator ro c slug body now
        = (.readonlyViolation (((cleanUpdateFields body).map (fun kv => kv.1)).filter
            (fun k => ro.contains k)), c))
    ∧ (((cleanUpdateFields body).map (fun kv => kv.1)).filter
        (fun k => ro.contains k) = [] →
      (cleanUpdateFields body).length > 0 →
      (validator (.obj (spreadMerge (fieldsOf (c.getD i .null))
        (cleanUpdateFields body)))).valid = false →
      putHandler validator ro c slug body now
        = (.invalidData (validator (.obj (spreadMerge (fieldsOf (c.getD i .null))
            (cleanUpdateFields body)))).errors, c)) :=
  ⟨fun hro => putHandler_readonly validator ro c slug body now i hIdx hro,
   fun hro hlen hv => putHandler_invalid validator ro c slug body now i hIdx hro hlen hv⟩

/-- C5 witness: both failure branches at concrete inputs — a readonly
registry containing `title` rejects a title update, and a type-invalid
`releaseYear` update is rejected after merging — each leaving the
collection unchanged. -/
theorem c5_put_failures_leave_cache_unchanged_witness :
    putHandler validateGame ["title"] [.obj (gameFields "hl")] "hl"
        [("title", .str "New")] nowIso
      = (.readonlyViolation ["title"], [.obj (gameFields "hl")])
    ∧ putHandler validateGame [] [.obj (gameFields "hl")] "hl"
        [("releaseYear", .str "bad")] nowIso
      = (.invalidData [⟨"releaseYear", "Expected number"⟩], [.obj (gameFields "hl")]) := by
  constructor
  · exact (c5_put_failures_leave_cache_unchanged validateGame ["title"]
      [.obj (gameFields "hl")] "hl" [("title", .str "New")] nowIso 0 rfl).1 (by decide)
  · exact (c5_put_failures_leave_cache_unchanged validateGame []
      [.obj (gameFields "hl")] "hl" [("releaseYear", .str "bad")] nowIso 0 rfl).2
      rfl (by decide) rfl

/-! ## Claim C6 -/

/-- C6: a successful update-by-slug stores the old record merged with the
effective update fields (partial fields win); `slug`, `id` and `createdAt`
supplied in the body are ignored and the stored values preserved;
`updatedAt` is refreshed to the handler's timestamp; every field not named
in the effective update fields keeps its previous value; every other
record of the collection is untouched; and on the whole cache map every
other resource type's collection is untouched. -/
theorem c6_put_merge_semantics (validator : Json → VResult) (ro : List String)
    (cs : List Json) (slug : String) (body : Obj) (now : String) (i : Nat)
    (hIdx : cs.findIdx? (fun p => itemSlugIs p slug) = some i)
    (hro : ((cleanUpdateFields body).map (fun kv => kv.1)).filter
      (fun k => ro.contains k) = [])
    (hv : (cleanUpdateFields body).length > 0 →
      (validator (.obj (spreadMerge (fieldsOf (cs.getD i .null))
        (cleanUpdateFields body)))).valid = true) :
    putHandler validator ro cs slug body now
      = (.updated (mergedRecord (fieldsOf (cs.getD i .null)) (cleanUpdateFields body) now),
         cs.set i (.obj (mergedRecord (fieldsOf (cs.getD i .null)) (cleanUpdateFields body) now)))
    ∧ getField (mergedRecord (fieldsOf (cs.getD i .null)) (cleanUpdateFields body) now) "slug"
      = getField (fieldsOf (cs.getD i .null)) "slug"
    ∧ getField (mergedRecord (fieldsOf (cs.getD i .null)) (cleanUpdateFields body) now) "id"
      = getField (fieldsOf (cs.getD i .null)) "id"
    ∧ getField (mergedRecord (fieldsOf (cs.getD i .null)) (cleanUpdateFields body) now) "createdAt"
      = getField (fieldsOf (cs.getD i .null)) "createdAt"
    ∧ getField (mergedRecord (fieldsOf (cs.getD i .null)) (cleanUpdateFields body) now) "updatedAt"
      = some (.str now)
    ∧ (∀ k v, k ≠ "updatedAt" → getField (cleanUpdateFields body) k = some v →
        getField (mergedRecord (fieldsOf (cs.getD i .null)) (cleanUpdateFields body) now) k
          = some v)
    ∧ (∀ k, k ≠ "updatedAt" → getField (cleanUpdateFields body) k = none →
        getField (mergedRecord (fieldsOf (cs.getD i .null)) (cleanUpdateFields body) now) k
          = getField (fieldsOf (cs.getD i .null)) k)
    ∧ (∀ j, j ≠ i →
        (cs.set i (.obj (mergedRecord (fieldsOf (cs.getD i .null)) (cleanUpdateFields body) now)))[j]?
          = cs[j]?)
    ∧ (∀ (m : CacheMap) (type t2 : String), t2 ≠ type →
        (putOnCache validator ro m type slug body now).2 t2 = m t2) := by
  refine ⟨putHandler_updated validator ro cs slug body now i hIdx hro hv,
    ?_, ?_, ?_, getField_mergedRecord_updatedAt _ _ _, ?_, ?_, ?_, ?_⟩
  · rw [getField_mergedRecord_ne _ _ _ _ (by decide), getField_cleanUpdateFields_slug]
    cases getField (fieldsOf (cs.getD i .null)) "slug" <;> rfl
  · rw [getField_mergedRecord_ne _ _ _ _ (by decide), getField_cleanUpdateFields_id]
    cases getField (fieldsOf (cs.getD i .null)) "id" <;> rfl
  · rw [getField_mergedRecord_ne _ _ _ _ (by decide), getField_cleanUpdateFields_createdAt]
    cases getField (fieldsOf (cs.getD i .null)) "createdAt" <;> rfl
  · intro k v hk hsome
    rw [getField_mergedRecord_ne _ _ _ _ hk, hsome]
    rfl
  · intro k hk hnone
    rw [getField_mergedRecord_ne _ _ _ _ hk, hnone]
    cases getField (fieldsOf (cs.getD i .null)) k <;> rfl
  · intro j hj
    exact List.getElem?_set_ne (fun hc => hj hc.symm)
  · intro m type t2 ht2
    unfold putOnCache
    exact Function.update_noteq ht2 _ m

/-- C6 witness: a concrete title update against a one-record collection. -/
theorem c6_put_merge_semantics_witness :
    putHandler validateGame [] [.obj (gameFields "hl")] "hl"
        [("title", .str "New")] nowIso
      = (.updated (mergedRecord (gameFields "hl") [("title", .str "New")] nowIso),
         [.obj (mergedRecord (gameFields "hl") [("title", .str "New")] nowIso)])
    ∧ getField (mergedRecord (gameFields "hl") [("title", .str "New")] nowIso) "slug"
      = some (.str "hl")
    ∧ getField (mergedRecord (gameFields "hl") [("title", .str "New")] nowIso) "title"
      = some (.str "New")
    ∧ getField (mergedRecord (gameFields "hl") [("title", .str "New")] nowIso) "updatedAt"
      = some (.str nowIso) := by
  obtain ⟨h1, h2, h3, h4, h5, h6, h7, h8, h9⟩ :=
    c6_put_merge_semantics validateGame [] [.obj (gameFields "hl")] "hl"
      [("title", .str "New")] nowIso 0 rfl rfl (fun hlen => by decide)
  refine ⟨h1, ?_, ?_, h5⟩
  · rw [show cleanUpdateFields [("title", .str "New")] = [("title", .str "New")] from rfl] at h2
    exact h2
  · have := h6 "title" (.str "New") (by decide) rfl
    rw [show cleanUpdateFields [("title", .str "New")] = [("title", .str "New")] from rfl] at this
    exact this

/-! ## Claim C8 -/

/-- The branch-free form of `loadData` on a parsed array. -/
theorem loadData_parsed_arr (validator : Json → VResult) (type : String)
    (items : List Json) :
    loadData validator type (.parsed (.arr items))
      = if hasInvalidNull validator items then
          .error (syntaxWrap type nullIdTypeError)
        else if (invalidItemsOf validator items).isEmpty then .ok items
        else .error (syntaxWrap type (validationReport type (invalidItemsOf validator items))) :=
  rfl

/-- When `loadData` accepts a parsed array it populates the cache with
exactly the file's records, in file order. -/
theorem loadData_ok_parsed (validator : Json → VResult) (type : String)
    (items cache0 : List Json)
    (h : loadData validator type (.parsed (.arr items)) = .ok cache0) :
    cache0 = items := by
  rw [loadData_parsed_arr] at h
  split at h
  · cases h
  · split at h
    · injection h with h2
      exact h2.symm
    · cases h

/-- C8 counterexample: the loader does not check slug uniqueness.  A
backing file holding two schema-valid games with the same slug is accepted
and populates the cache as-is, so the cache starts with a duplicated slug —
refuting the claim that Loader population preserves the uniqueness
invariant. -/
theorem c8_counterexample_loader_accepts_duplicate_slugs :
    loadData validateGame "game"
        (.parsed (.arr [.obj (gameFields "dup"), .obj (gameFields "dup")]))
      = .ok [.obj (gameFields "dup"), .obj (gameFields "dup")]
    ∧ ¬ slugsUnique [.obj (gameFields "dup"), .obj (gameFields "dup")] := by
  constructor
  · rfl
  · intro h
    unfold slugsUnique at h
    rw [List.pairwise_cons] at h
    have := h.1 (.obj (gameFields "dup")) (List.mem_singleton_self _)
    unfold slugDistinct at this
    rw [show jsStrictEq (slugOfItem (.obj (gameFields "dup")))
      (slugOfItem (.obj (gameFields "dup"))) = true from rfl] at this
    cases this

/-- C8 (amended): the mutating cache operations preserve slug uniqueness —
insert rejects duplicate slugs before appending, update-by-slug keeps the
stored slug, delete only removes records — while Loader population copies
the file's records verbatim, so after startup the invariant holds exactly
when the file's records already satisfied it. -/
theorem c8_mutations_preserve_slug_uniqueness :
    (∀ (c : List Json) (fields : Obj) (now : String),
      slugsUnique c →
      c.any (fun item =>
        jsStrictEq (slugOfItem item) (getField (deleteField fields "id") "slug")) = false →
      slugsUnique (c ++ [.obj (postStamped fields now)]))
    ∧ (∀ (cs : List Json) (slug : String) (body : Obj) (now : String) (i : Nat),
      cs.findIdx? (fun p => itemSlugIs p slug) = some i →
      slugsUnique cs →
      slugsUnique (cs.set i
        (.obj (mergedRecord (fieldsOf (cs.getD i .null)) (cleanUpdateFields body) now))))
    ∧ (∀ (c : List Json) (itemId : Int),
      slugsUnique c → slugsUnique (deleteHandler c itemId).2)
    ∧ (∀ (validator : Json → VResult) (type : String) (items cache0 : List Json),
      loadData validator type (.parsed (.arr items)) = .ok cache0 →
      slugsUnique items → slugsUnique cache0) := by
  refine ⟨?_, ?_, ?_, ?_⟩
  · intro c fields now hu hdup
    apply slugsUnique_append_of_not_dup c _ hu
    rw [show slugOfItem (.obj (postStamped fields now))
      = getField (deleteField fields "id") "slug" from getField_postStamped_slug fields now]
    exact hdup
  · intro cs slug body now i hIdx hu
    have hi : i < cs.length :=
      (List.findIdx?_eq_some_iff_findIdx_eq.mp hIdx).1
    apply slugsUnique_set cs i _ hu hi
    rw [show cs.getD i .null = cs[i] from List.getD_eq_getElem cs .null hi]
    exact slugOfItem_mergedRecord (cs[i]) body now
  · intro c itemId hu
    unfold deleteHandler
    by_cases h : ((c.filter (fun p => keptByDelete p itemId)).length == c.length) = true
    · simp only [h, if_true]
      exact hu
    · simp only [h, if_false]
      exact slugsUnique_filter c _ hu
  · intro validator type items cache0 h hu
    rw [loadData_ok_parsed validator type items cache0 h]
    exact hu

/-- C8 witness: the amended theorem's parts at concrete inputs — an insert
next to a different slug, an update of a one-record collection, and a
delete. -/
theorem c8_mutations_preserve_slug_uniqueness_witness :
    slugsUnique [.obj (gameFields "other"), .obj (postStamped (gameFields "hl") nowIso)]
    ∧ slugsUnique
        ([.obj (gameFields "hl")].set 0
          (.obj (mergedRecord (fieldsOf (.obj (gameFields "hl")))
            (cleanUpdateFields [("title", .str "New")]) nowIso)))
    ∧ slugsUnique (deleteHandler [.obj (gameFields "hl")] 3).2 := by
  obtain ⟨hpost, hput, hdel, hload⟩ := c8_mutations_preserve_slug_uniqueness
  refine ⟨?_, ?_, ?_⟩
  · have := hpost [.obj (gameFields "other")] (gameFields "hl") nowIso
      (List.pairwise_singleton _ _) (by decide)
    exact this
  · exact hput [.obj (gameFields "hl")] "hl" [("title", .str "New")] nowIso 0 rfl
      (List.pairwise_singleton _ _)
  · exact hdel [.obj (gameFields "hl")] 3 (List.pairwise_singleton _ _)

/-! ## Claim C7 -/

theorem loadData_error_of_invalidNull (validator : Json → VResult)
    (type : String) (items : List Json)
    (h : hasInvalidNull validator items = true) :
    loadData validator type (.parsed (.arr items))
      = .error (syntaxWrap type nullIdTypeError) := by
  rw [loadData_parsed_arr, h, if_pos rfl]

/-- The array elements the C7 counterexample feeds the loader: a `null`
element followed by an invalid object. -/
def nullCrashItems : List Json := [.null, .obj []]

/-- C7 counterexample: the claim says the failure report enumerates every
invalid record with its field-grouped reasons.  On a file whose array
contains `null`, the report loop itself crashes — pushing the invalid
record evaluates `item.id`, a TypeError on `null` — so the startup error is
the wrapped TypeError, not the enumerating report, although two records are
invalid (startup still aborts). -/
theorem c7_counterexample_null_item_breaks_enumeration :
    loadData validateGame "game" (.parsed (.arr nullCrashItems))
      = .error (syntaxWrap "game" nullIdTypeError)
    ∧ (invalidItemsOf validateGame nullCrashItems).map (fun it => it.index) = [0, 1]
    ∧ syntaxWrap "game" nullIdTypeError
      ≠ syntaxWrap "game" (validationReport "game" (invalidItemsOf validateGame nullCrashItems)) := by
  refine ⟨rfl, rfl, ?_⟩
  decide

/-- C7 (amended): if any record of any registered type's collection file
fails schema validation, or any file fails to parse, or a parsed file's
top-level shape is not an array, the whole startup aborts (no partial
startup); and — provided no invalid array element is `null` (a `null`
element makes the report a TypeError instead) — the failure message is the
validation report built from *all* invalid records, each invalid record
appears in that enumeration with all its field errors, and the per-record
formatting groups every field-level reason under its field. -/
theorem c7_startup_all_or_nothing (registry : List (String × (Json → VResult)))
    (files : String → ParsedFile) :
    (∀ (t : String) (v : Json → VResult) (items : List Json) (i : Nat)
       (hi : i < items.length),
      (t, v) ∈ registry → files t = .parsed (.arr items) →
      (v items[i]).valid = false →
      ∃ m, startup registry files = .error m)
    ∧ (∀ (t msg : String) (v : Json → VResult),
      (t, v) ∈ registry → files t = .unparsable msg →
      ∃ m, startup registry files = .error m)
    ∧ (∀ (t : String) (v : Json → VResult) (j : Json),
      (t, v) ∈ registry → files t = .parsed j → (∀ l, j ≠ .arr l) →
      ∃ m, startup registry files = .error m)
    ∧ (∀ (v : Json → VResult) (type : String) (items : List Json),
      hasInvalidNull v items = false → (invalidItemsOf v items).isEmpty = false →
      loadData v type (.parsed (.arr items))
        = .error (syntaxWrap type (validationReport type (invalidItemsOf v items))))
    ∧ (∀ (v : Json → VResult) (items : List Json) (i : Nat) (hi : i < items.length),
      (v items[i]).valid = false →
      (⟨i, idDisplayOf items[i], (v items[i]).errors⟩ : InvalidItem)
        ∈ invalidItemsOf v items)
    ∧ (∀ (errs : List FieldError) (e : FieldError), e ∈ errs →
      ∃ g ∈ groupErrorsByField errs, g.1 = e.field ∧ e.message ∈ g.2) := by
  refine ⟨?_, ?_, ?_, loadData_error_of_invalid, mem_invalidItemsOf,
    mem_groupErrorsByField⟩
  · intro t v items i hi hmem hfile hv
    by_cases hn : hasInvalidNull v items = true
    · have herr : loadData v t (files t) = .error (syntaxWrap t nullIdTypeError) := by
        rw [hfile]
        exact loadData_error_of_invalidNull v t items hn
      exact startup_error_of_mem registry files t v hmem _ herr
    · rw [Bool.not_eq_true] at hn
      have hne : (invalidItemsOf v items).isEmpty = false := by
        cases hE : (invalidItemsOf v items).isEmpty
        · rfl
        · exfalso
          have hmem2 := mem_invalidItemsOf v items i hi hv
          rw [List.isEmpty_iff.mp hE] at hmem2
          cases hmem2
      have herr : loadData v t (files t)
          = .error (syntaxWrap t (validationReport t (invalidItemsOf v items))) := by
        rw [hfile]
        exact loadData_error_of_invalid v t items hn hne
      exact startup_error_of_mem registry files t v hmem _ herr
  · intro t msg v hmem hfile
    have herr : loadData v t (files t) = .error (syntaxWrap t msg) := by
      rw [hfile]
      exact loadData_error_of_unparsable v t msg
    exact startup_error_of_mem registry files t v hmem _ herr
  · intro t v j hmem hfile hj
    have herr : loadData v t (files t) = .error (syntaxWrap t (structureMsg t)) := by
      rw [hfile]
      exact loadData_error_of_not_array v t j hj
    exact startup_error_of_mem registry files t v hmem _ herr

/-- The backing files driving the C7 witness: the `game` file holds one
invalid record, no other type has a file. -/
def badGameFiles : String → ParsedFile :=
  fun t => if t == "game" then .parsed (.arr [.obj []]) else .missing

/-- C7 witness: with the repository's registry and a `game` file containing
one invalid record, the startup of the whole process aborts. -/
theorem c7_startup_all_or_nothing_witness :
    ∃ m, startup [("game", validateGame)] badGameFiles = .error m :=
  (c7_startup_all_or_nothing [("game", validateGame)] badGameFiles).1
    "game" validateGame [.obj []] 0 (by decide) (List.mem_singleton_self _) rfl rfl


end ProgettoBackend
